import Mathlib

/-!
Verification of the ensemble perturbations routine of this repository
(file src/anemoi/datasets/compute/perturbations.py).

The embedding models a GRIB field as a record of its metadata together
with its numeric grid, flattened to a list of rational numbers.  The
field-collection operations used by the routine (order_by, unique_values,
indexing) are modelled on lists, the GRIB output sink is modelled as the
list of write calls it receives, and reopening the written file yields
exactly the written fields.  Python assertion failures, the KeyError of a
dictionary lookup, and the explicit ValueError are all modelled as values
of an error type returned by the routine.
-/

/-- Total order on characters through their code points. -/
def charLtB (a b : Char) : Bool := decide (a.toNat < b.toNat)

/-- Lexicographic order on lists of characters, mirroring the order Python
uses on strings. -/
def charListLtB : List Char → List Char → Bool
  | [], [] => false
  | [], _ :: _ => true
  | _ :: _, [] => false
  | a :: as, b :: bs =>
    if a.toNat < b.toNat then true
    else if b.toNat < a.toNat then false
    else charListLtB as bs

/-- Strict order on strings (lexicographic on the character data). -/
def strLtB (a b : String) : Bool := charListLtB a.data b.data

/-- Model of one GRIB field: metadata scalars used by the routine plus the
numeric grid returned by to_numpy, flattened to a list of rationals.
The fields mars_grid and mars_area are opaque descriptors, modelled as
naturals; shape is the shape attribute of the field. -/
structure GribField where
  mars_grid : ℕ
  mars_area : ℕ
  shape : List ℕ
  valid_datetime : String
  param : String
  level : ℤ
  date : ℤ
  time : ℤ
  step : ℤ
  number : Option ℤ
  as_mars : List (String × String)
  values : List ℚ
deriving DecidableEq

/-- Default field used to totalise positional indexing, as in
members[i * n_numbers + j]; it is never reached on the executed paths. -/
def defaultField : GribField :=
  { mars_grid := 0, mars_area := 0, shape := [], valid_datetime := ""
    param := "", level := 0, date := 0, time := 0, step := 0
    number := none, as_mars := [], values := [] }

/-- SKIP from the source: mars keys excluded from the compatibility check. -/
def SKIP : List String :=
  ["class", "stream", "type", "number", "expver", "_leg_number", "anoffset"]

/-- CLIP_VARIABLES from the source: parameters clipped to be non-negative. -/
def CLIP_VARIABLES : List String :=
  ["q", "cp", "lsp", "tp", "sf", "swl4", "swl3", "swl2", "swl1"]

/-- Lookup of a key in a mars mapping (a Python dict modelled as an
association list); none plays the role of a KeyError. -/
def lookupKey (k : String) : List (String × String) → Option String
  | [] => none
  | p :: ps => if p.1 = k then some p.2 else lookupKey k ps

/-- Distinct values of a list in order of first appearance, modelling the
set of values collected by unique_values. -/
def dedupAcc {α : Type} [DecidableEq α] (l : List α) : List α :=
  l.foldl (fun acc x => if x ∈ acc then acc else acc ++ [x]) []

/-- number_list of the source: the distinct values of the number metadata
key over the member fields. -/
def unique_values_number (fs : List GribField) : List (Option ℤ) :=
  dedupAcc (fs.map (fun f => f.number))

/-- Failures of check_compatible: one constructor per assert of the source,
each carrying both offending values, plus the KeyError of a mars lookup. -/
inductive CompatErr where
  | grid (g1 g2 : ℕ)
  | area (a1 a2 : ℕ)
  | shapeMismatch (s1 s2 : List ℕ)
  | datetime (d1 d2 : String)
  | keyError (k : String)
  | keyValue (k : String) (v1 v2 : String)
deriving DecidableEq

/-- Union of the key sets of the two mars mappings (iteration list of the
for loop of check_compatible). -/
def marsKeys (m1 m2 : List (String × String)) : List String :=
  dedupAcc (m1.map Prod.fst ++ m2.map Prod.fst)

/-- The for loop of check_compatible: every key of the union that is not
in SKIP must be present in both mappings with equal values. -/
def checkMarsKeys (m1 m2 : List (String × String)) :
    List String → Except CompatErr Unit
  | [] => .ok ()
  | k :: ks =>
    if k ∈ SKIP then checkMarsKeys m1 m2 ks
    else
      match lookupKey k m1 with
      | none => .error (.keyError k)
      | some v1 =>
        match lookupKey k m2 with
        | none => .error (.keyError k)
        | some v2 =>
          if v1 = v2 then checkMarsKeys m1 m2 ks
          else .error (.keyValue k v1 v2)

/-- check_compatible from the source: same grid, area, shape and valid
datetime, then equality of all non-SKIP mars keys. -/
def check_compatible (f1 f2 : GribField)
    (center_field_as_mars ensemble_field_as_mars : List (String × String)) :
    Except CompatErr Unit :=
  if f1.mars_grid ≠ f2.mars_grid then .error (.grid f1.mars_grid f2.mars_grid)
  else if f1.mars_area ≠ f2.mars_area then .error (.area f1.mars_area f2.mars_area)
  else if f1.shape ≠ f2.shape then .error (.shapeMismatch f1.shape f2.shape)
  else if f1.valid_datetime ≠ f2.valid_datetime then
    .error (.datetime f1.valid_datetime f2.valid_datetime)
  else checkMarsKeys center_field_as_mars ensemble_field_as_mars
    (marsKeys center_field_as_mars ensemble_field_as_mars)

/-- Order on mars items ((key, value) pairs), key first, as Python sorted
orders pairs of strings. -/
def pairLeB (a b : String × String) : Bool :=
  if a.1 = b.1 then !(strLtB b.2 a.2) else strLtB a.1 b.1

/-- Insertion into a sorted list of mars items. -/
def insertPair (p : String × String) :
    List (String × String) → List (String × String)
  | [] => [p]
  | q :: qs => if pairLeB p q then p :: q :: qs else q :: insertPair p qs

/-- tuple(sorted(d.items())) of the source: the canonical form of a mars
mapping used for duplicate detection. -/
def canonicalMars (m : List (String × String)) : List (String × String) :=
  m.foldr insertPair []

/-- Comparison of optional member numbers (a missing number sorts first). -/
def cmpOptInt : Option ℤ → Option ℤ → Ordering
  | none, none => .eq
  | none, some _ => .lt
  | some _, none => .gt
  | some a, some b => if a < b then .lt else if a = b then .eq else .gt

/-- Comparison of two strings as an Ordering value. -/
def cmpStr (a b : String) : Ordering :=
  if strLtB a b then .lt else if a = b then .eq else .gt

/-- Comparison of two integers as an Ordering value. -/
def cmpInt (a b : ℤ) : Ordering :=
  if a < b then .lt else if a = b then .eq else .gt

/-- The composite sort key of order_by: (param, level, valid_datetime,
date, time, step, number). -/
def fieldKeyCmp (f g : GribField) : Ordering :=
  (cmpStr f.param g.param).then
    ((cmpInt f.level g.level).then
      ((cmpStr f.valid_datetime g.valid_datetime).then
        ((cmpInt f.date g.date).then
          ((cmpInt f.time g.time).then
            ((cmpInt f.step g.step).then
              (cmpOptInt f.number g.number))))))

/-- Boolean order induced by the composite sort key. -/
def fieldLeB (f g : GribField) : Bool :=
  match fieldKeyCmp f g with
  | .gt => false
  | _ => true

/-- Insertion into a list sorted by the composite key. -/
def insertField (f : GribField) : List GribField → List GribField
  | [] => [f]
  | g :: gs => if fieldLeB f g then f :: g :: gs else g :: insertField f gs

/-- order_by of the field-collection provider: sort by the composite key
(param, level, valid_datetime, date, time, step, number). -/
def order_by (fs : List GribField) : List GribField :=
  fs.foldr insertField []

/-- Failures of the perturbations routine: the assert on the unset member
number, the ValueError on the count mismatch, a propagated
check_compatible failure, the numpy error on storing a grid of the wrong
size into the ensemble array, the assert on a duplicate mars key set, the
post-loop assert on the seen count, and the assert on the length of the
reopened dataset. -/
inductive PerturbErr where
  | unsetNumber
  | countMismatch (nc nn nm : ℕ)
  | compat (e : CompatErr)
  | numpyShape (l1 l2 : ℕ)
  | duplicate (key : List (String × String))
  | seenCount (ns nm : ℕ)
  | reopenCount (nd nm : ℕ)
deriving DecidableEq

/-- One write call received by the GRIB output sink: the numeric grid and
the template field. -/
structure WriteRec where
  values : List ℚ
  template : GribField
deriving DecidableEq

/-- Value returned by perturbations: the explicit output path when one was
given, otherwise the reopened field collection. -/
inductive PReturn where
  | path (p : String)
  | collection (ds : List WriteRec)
deriving DecidableEq

/-- State of a run of the main loop: the write calls made so far, the seen
set (as the list of its elements in insertion order), and the error that
aborted the loop, when one did. -/
structure RunOut where
  written : List WriteRec
  seen : List (List (String × String))
  err : Option PerturbErr
deriving DecidableEq

deriving instance DecidableEq for Except

/-- Result of the whole routine: the write calls made and either the
return value or the error raised. -/
structure RunResult where
  written : List WriteRec
  result : Except PerturbErr PReturn
deriving DecidableEq

/-- Elementwise difference of two grids (c - m). -/
def gridSub (a b : List ℚ) : List ℚ := List.zipWith (fun x y => x - y) a b

/-- Elementwise sum of two grids ((c - m) + e). -/
def gridAdd (a b : List ℚ) : List ℚ := List.zipWith (fun x y => x + y) a b

/-- np.maximum(x, 0): elementwise clipping to non-negative values. -/
def gridClip (a : List ℚ) : List ℚ := a.map (fun v => max v 0)

/-- members_np.mean(axis=0): the per-gridpoint arithmetic mean of the
stacked ensemble grids, one value per gridpoint index below L. -/
def meanAxis0 (rows : List (List ℚ)) (L : ℕ) : List ℚ :=
  (List.range L).map (fun k =>
    ((rows.map (fun r => r.getD k 0)).sum) / (rows.length : ℚ))

/-- First inner loop of the source over one ensemble block: run
check_compatible against the center field, store the member grid into the
ensemble array (a numpy error when its size differs from the center
grid), canonicalize the mars mapping, fail on a repeat in the seen set
and add it.  Returns the stored grids and the grown seen set. -/
def scanBlock (cf : GribField) (cvals : List ℚ)
    (seen : List (List (String × String))) :
    List GribField →
      Except PerturbErr (List (List ℚ) × List (List (String × String)))
  | [] => .ok ([], seen)
  | ef :: efs =>
    match check_compatible cf ef cf.as_mars ef.as_mars with
    | .error e => .error (.compat e)
    | .ok _ =>
      if ef.values.length ≠ cvals.length then
        .error (.numpyShape ef.values.length cvals.length)
      else
        let key := canonicalMars ef.as_mars
        if key ∈ seen then .error (.duplicate key)
        else
          match scanBlock cf cvals (seen ++ [key]) efs with
          | .error e => .error e
          | .ok (rows, seen2) => .ok (ef.values :: rows, seen2)

/-- Second inner loop of the source over one ensemble block: for each
member grid e compute x = c - m + e, clip when the parameter of the block
is in the clip set, and write x with the member field as template. -/
def writeBlock (param : String) (clip : List String) (c m : List ℚ)
    (rows : List (List ℚ)) (templates : List GribField) : List WriteRec :=
  List.zipWith
    (fun e t =>
      let x := gridAdd (gridSub c m) e
      ⟨if param ∈ clip then gridClip x else x, t⟩)
    rows templates

/-- Main loop of the source over the center fields: each center field at
position i is processed against the ensemble block
members[i * n_numbers : (i + 1) * n_numbers], here the first n fields of
the not yet consumed suffix of the ordered members. -/
def processBlocks (clip : List String) (n : ℕ) :
    List GribField → List GribField → List (List (String × String)) →
      List WriteRec → RunOut
  | [], _, seen, written => ⟨written, seen, none⟩
  | cf :: cs, rem, seen, written =>
    let c := cf.values
    let block := rem.take n
    match scanBlock cf c seen block with
    | .error e => ⟨written, seen, some e⟩
    | .ok (rows, seen2) =>
      let m := meanAxis0 rows c.length
      processBlocks clip n cs (rem.drop n) seen2
        (written ++ writeBlock cf.param clip c m rows block)

/-- perturbations from the source.  The members and center collections are
sorted by the composite key, the preconditions on the member numbers and
on the field counts are checked, the main loop runs, and the result is
either the explicit output path or the reopened collection of the written
fields. -/
def perturbations (members center : List GribField)
    (clip_variables : List String) (output : Option String) : RunResult :=
  let number_list := unique_values_number members
  let n_numbers := number_list.length
  if none ∈ number_list then ⟨[], .error .unsetNumber⟩
  else
    let omembers := order_by members
    let ocenter := order_by center
    if ocenter.length * n_numbers ≠ omembers.length then
      ⟨[], .error (.countMismatch ocenter.length n_numbers omembers.length)⟩
    else
      let run := processBlocks clip_variables n_numbers ocenter omembers [] []
      match run.err with
      | some e => ⟨run.written, .error e⟩
      | none =>
        if run.seen.length ≠ omembers.length then
          ⟨run.written, .error (.seenCount run.seen.length omembers.length)⟩
        else
          match output with
          | some p => ⟨run.written, .ok (.path p)⟩
          | none =>
            if run.written.length ≠ omembers.length then
              ⟨run.written, .error (.reopenCount run.written.length omembers.length)⟩
            else ⟨run.written, .ok (.collection run.written)⟩

/-- True when the routine returned without raising. -/
def isOkB : Except PerturbErr PReturn → Bool
  | .ok _ => true
  | .error _ => false

/-- The write calls of one ensemble block on the successful path: the
grids are the member grids, the mean is taken over them, and each member
grid is recentered and written with its field as template. -/
def blockWrites (clip : List String) (cf : GribField)
    (block : List GribField) : List WriteRec :=
  let c := cf.values
  let rows := block.map (fun f => f.values)
  writeBlock cf.param clip c (meanAxis0 rows c.length) rows block

/-- All write calls of a successful run, block by block. -/
def allWrites (clip : List String) (n : ℕ) :
    List GribField → List GribField → List WriteRec
  | [], _ => []
  | cf :: cs, rem =>
    blockWrites clip cf (rem.take n) ++ allWrites clip n cs (rem.drop n)


/-- True when the routine raised the post-loop seen-count assertion. -/
def isSeenCountErr : Except PerturbErr PReturn → Bool
  | .error (.seenCount _ _) => true
  | _ => false

/-- Compatibility as worded by the specification sentence under test: same
grid descriptor, geographic area, array shape and valid timestamp, and
equal values on every shared non-excluded mars key, that is every key
present in both key sets and not in SKIP.  Written from the words of the
specification for comparison with check_compatible. -/
def specCompatible (f1 f2 : GribField)
    (m1 m2 : List (String × String)) : Prop :=
  f1.mars_grid = f2.mars_grid ∧ f1.mars_area = f2.mars_area ∧
  f1.shape = f2.shape ∧ f1.valid_datetime = f2.valid_datetime ∧
  ∀ k ∈ m1.map Prod.fst, k ∈ m2.map Prod.fst → k ∉ SKIP →
    lookupKey k m1 = lookupKey k m2

instance (f1 f2 : GribField) (m1 m2 : List (String × String)) :
    Decidable (specCompatible f1 f2 m1 m2) := by
  unfold specCompatible
  infer_instance

/-- Concrete center field for the temperature parameter t (not clipped). -/
def exCenterT : GribField :=
  { mars_grid := 1, mars_area := 2, shape := [2], valid_datetime := "2024"
    param := "t", level := 850, date := 20240101, time := 0, step := 0
    number := none, as_mars := [("param", "t")], values := [1, 2] }

/-- Concrete ensemble member 1 of the t block. -/
def exMemberT1 : GribField :=
  { exCenterT with
    number := some 1
    as_mars := [("param", "t"), ("number", "1")]
    values := [3, 5] }

/-- Concrete ensemble member 2 of the t block. -/
def exMemberT2 : GribField :=
  { exCenterT with
    number := some 2
    as_mars := [("param", "t"), ("number", "2")]
    values := [1, 1] }

/-- Concrete member with the same mars key set as exMemberT1 but another
member number: a duplicate canonical key. -/
def exDupMember : GribField :=
  { exMemberT1 with number := some 2, values := [7, 8] }

/-- Concrete center field for total precipitation tp (a clip variable). -/
def exCenterTP : GribField :=
  { exCenterT with param := "tp", as_mars := [("param", "tp")], values := [0] }

/-- Concrete tp member with a positive deviation. -/
def exMemberTP1 : GribField :=
  { exCenterTP with
    number := some 1
    as_mars := [("param", "tp"), ("number", "1")]
    values := [1] }

/-- Concrete tp member with a negative deviation. -/
def exMemberTP2 : GribField :=
  { exCenterTP with
    number := some 2
    as_mars := [("param", "tp"), ("number", "2")]
    values := [-1] }

/-- Concrete member with an unset member number. -/
def exUnsetMember : GribField :=
  { exMemberT1 with number := none }

/-- Field with one extra mars key relative to exCenterT. -/
def exExtraKeyField : GribField :=
  { exCenterT with as_mars := [("param", "t"), ("extra", "1")] }

/-! ### Basic lemmas about the helper functions -/

theorem insertField_length (f : GribField) (l : List GribField) :
    (insertField f l).length = l.length + 1 := by
  induction l with
  | nil => rfl
  | cons g gs ih =>
    by_cases h : fieldLeB f g
    · simp [insertField, h]
    · simp [insertField, h, ih]

theorem order_by_length (fs : List GribField) :
    (order_by fs).length = fs.length := by
  induction fs with
  | nil => rfl
  | cons f fs ih => simp [order_by, List.foldr] at ih ⊢
                    rw [insertField_length, ih]

theorem mem_foldl_dedup {α : Type} [DecidableEq α] (l : List α) (x : α) :
    ∀ acc : List α,
      (x ∈ l.foldl (fun acc y => if y ∈ acc then acc else acc ++ [y]) acc ↔
        x ∈ acc ∨ x ∈ l) := by
  induction l with
  | nil => intro acc; simp
  | cons y ys ih =>
    intro acc
    by_cases hy : y ∈ acc
    · simp only [List.foldl_cons, if_pos hy, ih acc, List.mem_cons]
      constructor
      · rintro (h | h)
        · exact Or.inl h
        · exact Or.inr (Or.inr h)
      · rintro (h | rfl | h)
        · exact Or.inl h
        · exact Or.inl hy
        · exact Or.inr h
    · simp only [List.foldl_cons, if_neg hy, ih (acc ++ [y]), List.mem_append,
        List.mem_singleton, List.mem_cons]
      tauto

theorem mem_dedupAcc {α : Type} [DecidableEq α] (l : List α) (x : α) :
    x ∈ dedupAcc l ↔ x ∈ l := by
  unfold dedupAcc
  rw [mem_foldl_dedup]
  simp

theorem mem_marsKeys (m1 m2 : List (String × String)) (k : String) :
    k ∈ marsKeys m1 m2 ↔ k ∈ m1.map Prod.fst ∨ k ∈ m2.map Prod.fst := by
  unfold marsKeys
  rw [mem_dedupAcc, List.mem_append]

theorem checkMarsKeys_ok_iff (m1 m2 : List (String × String))
    (ks : List String) :
    checkMarsKeys m1 m2 ks = .ok () ↔
      ∀ k ∈ ks, k ∉ SKIP →
        ∃ v, lookupKey k m1 = some v ∧ lookupKey k m2 = some v := by
  induction ks with
  | nil => simp [checkMarsKeys]
  | cons k ks ih =>
    by_cases hs : k ∈ SKIP
    · simp only [checkMarsKeys, if_pos hs, ih, List.mem_cons]
      constructor
      · rintro h k2 (rfl | hk2) hns
        · exact absurd hs hns
        · exact h k2 hk2 hns
      · intro h k2 hk2 hns
        exact h k2 (Or.inr hk2) hns
    · simp only [checkMarsKeys, if_neg hs]
      cases h1 : lookupKey k m1 with
      | none =>
        simp only [List.mem_cons]
        constructor
        · intro h; cases h
        · intro h
          obtain ⟨v, hv1, _⟩ := h k (Or.inl rfl) hs
          rw [h1] at hv1; cases hv1
      | some v1 =>
        cases h2 : lookupKey k m2 with
        | none =>
          simp only [List.mem_cons]
          constructor
          · intro h; cases h
          · intro h
            obtain ⟨v, _, hv2⟩ := h k (Or.inl rfl) hs
            rw [h2] at hv2; cases hv2
        | some v2 =>
          by_cases he : v1 = v2
          · simp only [if_pos he, ih, List.mem_cons]
            constructor
            · rintro h k2 (rfl | hk2) hns
              · exact ⟨v1, h1, by rw [h2, he]⟩
              · exact h k2 hk2 hns
            · intro h k2 hk2 hns
              exact h k2 (Or.inr hk2) hns
          · simp only [if_neg he, List.mem_cons]
            constructor
            · intro h; cases h
            · intro h
              obtain ⟨v, hv1, hv2⟩ := h k (Or.inl rfl) hs
              rw [h1] at hv1; rw [h2] at hv2
              cases hv1; cases hv2
              exact absurd rfl he

/-- Characterization of success of check_compatible: the four geometric
checks plus presence and equality, in both mappings, of every non-SKIP
key of the union of the two key sets. -/
theorem check_compatible_ok_char (f1 f2 : GribField)
    (m1 m2 : List (String × String)) :
    check_compatible f1 f2 m1 m2 = .ok () ↔
      (f1.mars_grid = f2.mars_grid ∧ f1.mars_area = f2.mars_area ∧
       f1.shape = f2.shape ∧ f1.valid_datetime = f2.valid_datetime ∧
       ∀ k, (k ∈ m1.map Prod.fst ∨ k ∈ m2.map Prod.fst) → k ∉ SKIP →
         ∃ v, lookupKey k m1 = some v ∧ lookupKey k m2 = some v) := by
  unfold check_compatible
  by_cases h1 : f1.mars_grid = f2.mars_grid <;>
    by_cases h2 : f1.mars_area = f2.mars_area <;>
      by_cases h3 : f1.shape = f2.shape <;>
        by_cases h4 : f1.valid_datetime = f2.valid_datetime <;>
          simp [h1, h2, h3, h4, checkMarsKeys_ok_iff, mem_marsKeys]

/-- Shorthand for the canonical mars key set of a field. -/
def fieldKey (f : GribField) : List (String × String) :=
  canonicalMars f.as_mars

/-- What success of the first inner loop tells us: the stored grids are
the member grids, the seen set grew by the canonical key of every member
of the block in order, all members passed the compatibility check and
have grids of the size of the center grid, and the canonical keys of the
block are pairwise distinct and fresh with respect to the seen set. -/
theorem scanBlock_ok_elim (cf : GribField) (cvals : List ℚ) :
    ∀ (block : List GribField) (seen : List (List (String × String)))
      (rows : List (List ℚ)) (seen2 : List (List (String × String))),
      scanBlock cf cvals seen block = .ok (rows, seen2) →
      rows = block.map (fun f => f.values) ∧
      seen2 = seen ++ block.map fieldKey ∧
      (∀ ef ∈ block,
        check_compatible cf ef cf.as_mars ef.as_mars = .ok () ∧
        ef.values.length = cvals.length) ∧
      (block.map fieldKey).Nodup ∧
      (∀ key ∈ block.map fieldKey, key ∉ seen) := by
  intro block
  induction block with
  | nil =>
    intro seen rows seen2 h
    simp only [scanBlock] at h
    injection h with h
    injection h with h1 h2
    subst h1; subst h2
    simp
  | cons ef efs ih =>
    intro seen rows seen2 h
    simp only [scanBlock] at h
    cases hc : check_compatible cf ef cf.as_mars ef.as_mars with
    | error e => rw [hc] at h; cases h
    | ok u =>
      rw [hc] at h
      by_cases hl : ef.values.length ≠ cvals.length
      · rw [if_pos hl] at h; cases h
      · rw [if_neg hl] at h
        by_cases hk : canonicalMars ef.as_mars ∈ seen
        · rw [if_pos hk] at h; cases h
        · rw [if_neg hk] at h
          cases hrec : scanBlock cf cvals (seen ++ [canonicalMars ef.as_mars]) efs with
          | error e => rw [hrec] at h; cases h
          | ok p =>
            obtain ⟨rows2, seen3⟩ := p
            rw [hrec] at h
            injection h with h
            injection h with hr hs
            obtain ⟨h1, h2, h3, h4, h5⟩ := ih _ _ _ hrec
            subst hr; subst hs; subst h1; subst h2
            refine ⟨rfl, by simp [fieldKey], ?_, ?_, ?_⟩
            · intro g hg
              rcases List.mem_cons.mp hg with rfl | hg2
              · exact ⟨hc, not_not.mp hl⟩
              · exact h3 g hg2
            · rw [List.map_cons, List.nodup_cons]
              constructor
              · intro hmem
                exact h5 _ hmem (by simp [fieldKey, List.mem_append])
              · exact h4
            · intro key hkey
              rcases List.mem_cons.mp (List.map_cons _ _ _ ▸ hkey) with rfl | hk2
              · exact hk
              · intro hseen
                exact h5 _ hk2 (by simp [List.mem_append, hseen])

/-- Converse: when every member of the block is compatible with the
center field, has a grid of the right size, and the canonical keys are
pairwise distinct and fresh, the first inner loop succeeds and returns
the member grids and the grown seen set. -/
theorem scanBlock_ok_intro (cf : GribField) (cvals : List ℚ) :
    ∀ (block : List GribField) (seen : List (List (String × String))),
      (∀ ef ∈ block,
        check_compatible cf ef cf.as_mars ef.as_mars = .ok () ∧
        ef.values.length = cvals.length) →
      (block.map fieldKey).Nodup →
      (∀ key ∈ block.map fieldKey, key ∉ seen) →
      scanBlock cf cvals seen block =
        .ok (block.map (fun f => f.values), seen ++ block.map fieldKey) := by
  intro block
  induction block with
  | nil => intro seen _ _ _; simp [scanBlock]
  | cons ef efs ih =>
    intro seen hcomp hnd hfresh
    obtain ⟨hc, hl⟩ := hcomp ef (List.mem_cons_self _ _)
    have hk : canonicalMars ef.as_mars ∉ seen :=
      hfresh _ (by simp [fieldKey])
    simp only [scanBlock, hc]
    rw [if_neg (not_not.mpr hl), if_neg hk]
    rw [List.map_cons, List.nodup_cons] at hnd
    have hrec := ih (seen ++ [canonicalMars ef.as_mars])
      (fun g hg => hcomp g (List.mem_cons_of_mem _ hg))
      hnd.2
      (by
        intro key hkey
        rw [List.mem_append, List.mem_singleton]
        push_neg
        refine ⟨?_, ?_⟩
        · exact hfresh key (by simp [fieldKey, hkey])
        · intro hEq
          apply hnd.1
          show canonicalMars ef.as_mars ∈ List.map fieldKey efs
          exact hEq ▸ hkey)
    rw [hrec]
    simp [fieldKey]

/-- Length of the writes of one block: one write per member of the block. -/
theorem blockWrites_length (clip : List String) (cf : GribField)
    (block : List GribField) :
    (blockWrites clip cf block).length = block.length := by
  simp [blockWrites, writeBlock, List.length_zipWith]

/-- A successful run writes one field per member. -/
theorem allWrites_length (clip : List String) (n : ℕ) :
    ∀ (cs rem : List GribField), rem.length = cs.length * n →
      (allWrites clip n cs rem).length = rem.length := by
  intro cs
  induction cs with
  | nil =>
    intro rem h
    simp only [List.length_nil, Nat.zero_mul] at h
    simp [allWrites, h.symm]
  | cons cf cs2 ih =>
    intro rem h
    rw [List.length_cons, Nat.succ_mul] at h
    have hn : n ≤ rem.length := by omega
    have h2 : (rem.drop n).length = cs2.length * n := by
      rw [List.length_drop]; omega
    simp only [allWrites, List.length_append, blockWrites_length, ih _ h2,
      List.length_take, List.length_drop]
    omega


/-- Unfolding of the main loop on a failing block scan. -/
theorem processBlocks_cons_err (clip : List String) (n : ℕ) (cf : GribField)
    (cs rem : List GribField) (seen : List (List (String × String)))
    (written : List WriteRec) (e : PerturbErr)
    (h : scanBlock cf cf.values seen (rem.take n) = .error e) :
    processBlocks clip n (cf :: cs) rem seen written =
      ⟨written, seen, some e⟩ := by
  simp [processBlocks, h]

/-- Unfolding of the main loop on a successful block scan. -/
theorem processBlocks_cons_ok (clip : List String) (n : ℕ) (cf : GribField)
    (cs rem : List GribField) (seen : List (List (String × String)))
    (written : List WriteRec) (rows : List (List ℚ))
    (seen2 : List (List (String × String)))
    (h : scanBlock cf cf.values seen (rem.take n) = .ok (rows, seen2)) :
    processBlocks clip n (cf :: cs) rem seen written =
      processBlocks clip n cs (rem.drop n) seen2
        (written ++ writeBlock cf.param clip cf.values
          (meanAxis0 rows cf.values.length) rows (rem.take n)) := by
  simp [processBlocks, h]

/-- What success of the main loop tells us: the write calls are the
blockwise recentered grids, the final seen set is the initial one
followed by the canonical key of every member in order, and within each
block the member grids have the size of the center grid of the block. -/
theorem processBlocks_ok_elim (clip : List String) (n : ℕ) :
    ∀ (cs rem : List GribField)
      (seen : List (List (String × String))) (written : List WriteRec),
      rem.length = cs.length * n →
      (processBlocks clip n cs rem seen written).err = none →
      (processBlocks clip n cs rem seen written).written =
          written ++ allWrites clip n cs rem ∧
      (processBlocks clip n cs rem seen written).seen =
          seen ++ rem.map fieldKey ∧
      (∀ i, i < cs.length → ∀ ef ∈ (rem.drop (i * n)).take n,
        ef.values.length = (cs.getD i defaultField).values.length) := by
  intro cs
  induction cs with
  | nil =>
    intro rem seen written hlen herr
    simp only [List.length_nil, Nat.zero_mul] at hlen
    have hrem : rem = [] := List.length_eq_zero.mp hlen
    subst hrem
    simp [processBlocks, allWrites]
  | cons cf cs2 ih =>
    intro rem seen written hlen herr
    rw [List.length_cons, Nat.succ_mul] at hlen
    cases hscan : scanBlock cf cf.values seen (rem.take n) with
    | error e =>
      rw [processBlocks_cons_err clip n cf cs2 rem seen written e hscan] at herr
      simp at herr
    | ok p =>
      obtain ⟨rows, seen2⟩ := p
      rw [processBlocks_cons_ok clip n cf cs2 rem seen written rows seen2 hscan] at herr ⊢
      obtain ⟨hr, hs2, hcomp, _, _⟩ := scanBlock_ok_elim _ _ _ _ _ _ hscan
      have hlen2 : (rem.drop n).length = cs2.length * n := by
        rw [List.length_drop]; omega
      obtain ⟨hw, hsn, hbl⟩ := ih (rem.drop n) seen2
        (written ++ writeBlock cf.param clip cf.values
          (meanAxis0 rows cf.values.length) rows (rem.take n)) hlen2 herr
      refine ⟨?_, ?_, ?_⟩
      · rw [hw, hr]
        simp [allWrites, blockWrites, List.append_assoc]
      · rw [hsn, hs2, List.append_assoc, ← List.map_append, List.take_append_drop]
      · intro i hi ef hef
        cases i with
        | zero =>
          simp only [Nat.zero_mul, List.drop_zero, List.getD_cons_zero] at hef ⊢
          exact (hcomp ef hef).2
        | succ i =>
          have hi2 : i < cs2.length := by
            rw [List.length_cons] at hi; omega
          have hstep : (i + 1) * n = n + i * n := by ring
          rw [hstep, ← List.drop_drop] at hef
          simpa using hbl i hi2 ef hef

/-- Converse: when the counts line up, every member of every block is
compatible with its center field and has a grid of its size, and the
canonical keys of all members are pairwise distinct and fresh, the main
loop runs to completion without error and produces exactly the blockwise
writes and the grown seen set. -/
theorem processBlocks_ok_intro (clip : List String) (n : ℕ) :
    ∀ (cs rem : List GribField)
      (seen : List (List (String × String))) (written : List WriteRec),
      rem.length = cs.length * n →
      (∀ i, i < cs.length → ∀ ef ∈ (rem.drop (i * n)).take n,
        check_compatible (cs.getD i defaultField) ef
          (cs.getD i defaultField).as_mars ef.as_mars = .ok () ∧
        ef.values.length = (cs.getD i defaultField).values.length) →
      (rem.map fieldKey).Nodup →
      (∀ key ∈ rem.map fieldKey, key ∉ seen) →
      processBlocks clip n cs rem seen written =
        ⟨written ++ allWrites clip n cs rem, seen ++ rem.map fieldKey, none⟩ := by
  intro cs
  induction cs with
  | nil =>
    intro rem seen written hlen _ _ _
    simp only [List.length_nil, Nat.zero_mul] at hlen
    have hrem : rem = [] := List.length_eq_zero.mp hlen
    subst hrem
    simp [processBlocks, allWrites]
  | cons cf cs2 ih =>
    intro rem seen written hlen hcomp hnd hfresh
    rw [List.length_cons, Nat.succ_mul] at hlen
    have hcomp0 := hcomp 0 (by rw [List.length_cons]; omega)
    simp only [Nat.zero_mul, List.drop_zero, List.getD_cons_zero] at hcomp0
    have htake : rem.take n ++ rem.drop n = rem := List.take_append_drop n rem
    have hndsplit : ((rem.take n).map fieldKey).Nodup ∧
        ((rem.drop n).map fieldKey).Nodup ∧
        ∀ key ∈ (rem.take n).map fieldKey, key ∉ (rem.drop n).map fieldKey := by
      have hx : (rem.map fieldKey).Nodup := hnd
      rw [← htake, List.map_append, List.nodup_append] at hx
      exact ⟨hx.1, hx.2.1, fun key hk => hx.2.2 hk⟩
    have hscan := scanBlock_ok_intro cf cf.values (rem.take n) seen hcomp0
      hndsplit.1
      (fun key hk => hfresh key (by rw [← htake, List.map_append]; exact List.mem_append_left _ hk))
    rw [processBlocks_cons_ok clip n cf cs2 rem seen written _ _ hscan]
    have hlen2 : (rem.drop n).length = cs2.length * n := by
      rw [List.length_drop]; omega
    have hcomp2 : ∀ i, i < cs2.length → ∀ ef ∈ ((rem.drop n).drop (i * n)).take n,
        check_compatible (cs2.getD i defaultField) ef
          (cs2.getD i defaultField).as_mars ef.as_mars = .ok () ∧
        ef.values.length = (cs2.getD i defaultField).values.length := by
      intro i hi ef hef
      have hstep : (i + 1) * n = n + i * n := by ring
      rw [List.drop_drop, ← hstep] at hef
      simpa using hcomp (i + 1) (by rw [List.length_cons]; omega) ef hef
    have hfresh2 : ∀ key ∈ (rem.drop n).map fieldKey,
        key ∉ seen ++ (rem.take n).map fieldKey := by
      intro key hk
      rw [List.mem_append]
      push_neg
      refine ⟨hfresh key (by rw [← htake, List.map_append]; exact List.mem_append_right _ hk), ?_⟩
      intro hmem
      exact hndsplit.2.2 key hmem hk
    rw [ih (rem.drop n) (seen ++ (rem.take n).map fieldKey) _ hlen2 hcomp2 hndsplit.2.1 hfresh2]
    simp [allWrites, blockWrites, List.append_assoc, List.map_append]

/-- The write of one block at member position j: x = c - m + e with e the
grid of the j-th member of the block, clipped when the block parameter is
in the clip set, written with that member as template. -/
theorem blockWrites_getElem (clip : List String) (cf : GribField)
    (block : List GribField) (j : ℕ) (hj : j < block.length) :
    (blockWrites clip cf block)[j]? =
      some ⟨(fun x => if cf.param ∈ clip then gridClip x else x)
          (gridAdd
            (gridSub cf.values
              (meanAxis0 (block.map (fun f => f.values)) cf.values.length))
            (block.getD j defaultField).values),
        block.getD j defaultField⟩ := by
  simp only [blockWrites, writeBlock, List.getElem?_zipWith, List.getElem?_map]
  rw [List.getElem?_eq_getElem hj]
  simp [List.getD_eq_getElem?_getD, List.getElem?_eq_getElem hj]

/-- Write i * n + j of a successful run is write j of block i. -/
theorem allWrites_getElem (clip : List String) (n : ℕ) :
    ∀ (cs rem : List GribField) (i j : ℕ), rem.length = cs.length * n →
      i < cs.length → j < n →
      (allWrites clip n cs rem)[i * n + j]? =
        (blockWrites clip (cs.getD i defaultField)
          ((rem.drop (i * n)).take n))[j]? := by
  intro cs
  induction cs with
  | nil =>
    intro rem i j _ hi _
    exact absurd hi (by simp)
  | cons cf cs2 ih =>
    intro rem i j hlen hi hj
    rw [List.length_cons, Nat.succ_mul] at hlen
    have hbl : (blockWrites clip cf (rem.take n)).length = n := by
      rw [blockWrites_length, List.length_take]; omega
    cases i with
    | zero =>
      simp only [Nat.zero_mul, Nat.zero_add, List.drop_zero, List.getD_cons_zero]
      simp only [allWrites]
      rw [List.getElem?_append, if_pos (by omega)]
    | succ i =>
      have hi2 : i < cs2.length := by rw [List.length_cons] at hi; omega
      have hlen2 : (rem.drop n).length = cs2.length * n := by
        rw [List.length_drop]; omega
      have hidx : (i + 1) * n + j = n + (i * n + j) := by ring
      simp only [allWrites]
      rw [List.getElem?_append, if_neg (by omega)]
      rw [hbl]
      have hsub : (i + 1) * n + j - n = i * n + j := by omega
      rw [hsub, ih (rem.drop n) i j hlen2 hi2 hj]
      have hstep : (i + 1) * n = n + i * n := by ring
      rw [List.drop_drop, ← hstep]
      simp [List.getD]

/-- Pointwise value of the per-gridpoint mean. -/
theorem meanAxis0_getElem (rows : List (List ℚ)) (L k : ℕ) (hk : k < L) :
    (meanAxis0 rows L)[k]? =
      some ((rows.map (fun r => r.getD k 0)).sum / (rows.length : ℚ)) := by
  simp [meanAxis0, List.getElem?_map, List.getElem?_range, hk]

/-- Pointwise value of the recentering transform c - m + e. -/
theorem getD_recenter (c m e : List ℚ) (k : ℕ)
    (hc : k < c.length) (hm : k < m.length) (he : k < e.length) :
    (gridAdd (gridSub c m) e).getD k 0 = c.getD k 0 - m.getD k 0 + e.getD k 0 := by
  have h1 : k < (gridSub c m).length := by
    simp only [gridSub, List.length_zipWith]; omega
  have h2 : k < (gridAdd (gridSub c m) e).length := by
    simp only [gridAdd, gridSub, List.length_zipWith]; omega
  rw [List.getD_eq_getElem _ _ h2, List.getD_eq_getElem _ _ hc,
    List.getD_eq_getElem _ _ hm, List.getD_eq_getElem _ _ he]
  simp only [gridAdd, gridSub]
  rw [List.getElem_zipWith, List.getElem_zipWith]

/-- Arithmetic core of the recentering identity: the per-gridpoint mean
of the recentered grids c - m + e over the members e of a block equals
the center grid c, exactly, whenever the block is non-empty and all the
grids have the size of c. -/
theorem meanAxis0_recenter_eq_center (c : List ℚ) (rows : List (List ℚ))
    (hrows : ∀ r ∈ rows, r.length = c.length) (hn : rows.length ≠ 0) :
    meanAxis0 (rows.map (fun e =>
      gridAdd (gridSub c (meanAxis0 rows c.length)) e)) c.length = c := by
  have hmlen : (meanAxis0 rows c.length).length = c.length := by
    simp [meanAxis0]
  apply List.ext_getElem?
  intro k
  by_cases hk : k < c.length
  · rw [meanAxis0_getElem _ _ _ hk, List.getElem?_eq_getElem hk]
    congr 1
    rw [List.map_map, List.length_map]
    have hmap : rows.map ((fun r => r.getD k 0) ∘ (fun e =>
        gridAdd (gridSub c (meanAxis0 rows c.length)) e)) =
        rows.map (fun e =>
          (c.getD k 0 - (meanAxis0 rows c.length).getD k 0) + e.getD k 0) := by
      apply List.map_congr_left
      intro e he
      have helen : e.length = c.length := hrows e he
      simp only [Function.comp]
      rw [getD_recenter c (meanAxis0 rows c.length) e k hk (by omega) (by omega)]
    rw [hmap, List.sum_map_add]
    have hconst : (rows.map (fun _ =>
        c.getD k 0 - (meanAxis0 rows c.length).getD k 0)).sum =
        (rows.length : ℚ) * (c.getD k 0 - (meanAxis0 rows c.length).getD k 0) := by
      rw [List.map_const', List.sum_replicate, nsmul_eq_mul]
    rw [hconst]
    have hmk : (meanAxis0 rows c.length).getD k 0 =
        ((rows.map (fun r => r.getD k 0)).sum) / (rows.length : ℚ) := by
      rw [List.getD_eq_getElem?_getD, meanAxis0_getElem _ _ _ hk, Option.getD_some]
    rw [hmk, List.getD_eq_getElem _ _ hk]
    have hne : (rows.length : ℚ) ≠ 0 := by exact_mod_cast hn
    field_simp
  · have hL1 : (meanAxis0 (rows.map (fun e =>
        gridAdd (gridSub c (meanAxis0 rows c.length)) e)) c.length).length
        = c.length := by
      simp [meanAxis0]
    rw [List.getElem?_eq_none (by omega), List.getElem?_eq_none (by omega)]

/-- Every error of the first inner loop is a compatibility failure, a
numpy size failure, or a duplicate key. -/
theorem scanBlock_err_shape (cf : GribField) (cvals : List ℚ) :
    ∀ (block : List GribField) (seen : List (List (String × String)))
      (e : PerturbErr),
      scanBlock cf cvals seen block = .error e →
      (∃ ce, e = .compat ce) ∨ (∃ a b, e = .numpyShape a b) ∨
        ∃ key, e = .duplicate key := by
  intro block
  induction block with
  | nil => intro seen e h; simp [scanBlock] at h
  | cons ef efs ih =>
    intro seen e h
    simp only [scanBlock] at h
    cases hc : check_compatible cf ef cf.as_mars ef.as_mars with
    | error ce =>
      rw [hc] at h
      injection h with h
      exact Or.inl ⟨ce, h.symm⟩
    | ok u =>
      rw [hc] at h
      by_cases hl : ef.values.length ≠ cvals.length
      · rw [if_pos hl] at h
        injection h with h
        exact Or.inr (Or.inl ⟨_, _, h.symm⟩)
      · rw [if_neg hl] at h
        by_cases hk : canonicalMars ef.as_mars ∈ seen
        · rw [if_pos hk] at h
          injection h with h
          exact Or.inr (Or.inr ⟨_, h.symm⟩)
        · rw [if_neg hk] at h
          cases hrec : scanBlock cf cvals (seen ++ [canonicalMars ef.as_mars]) efs with
          | error e2 =>
            rw [hrec] at h
            injection h with h
            exact h ▸ ih _ _ hrec
          | ok p =>
            obtain ⟨r, s⟩ := p
            rw [hrec] at h
            cases h

/-- Every error of the main loop is a compatibility failure, a numpy size
failure, or a duplicate key. -/
theorem processBlocks_err_shape (clip : List String) (n : ℕ) :
    ∀ (cs rem : List GribField) (seen : List (List (String × String)))
      (written : List WriteRec) (e : PerturbErr),
      (processBlocks clip n cs rem seen written).err = some e →
      (∃ ce, e = .compat ce) ∨ (∃ a b, e = .numpyShape a b) ∨
        ∃ key, e = .duplicate key := by
  intro cs
  induction cs with
  | nil => intro rem seen written e h; simp [processBlocks] at h
  | cons cf cs2 ih =>
    intro rem seen written e h
    cases hscan : scanBlock cf cf.values seen (rem.take n) with
    | error e2 =>
      rw [processBlocks_cons_err clip n cf cs2 rem seen written e2 hscan] at h
      simp only [Option.some.injEq] at h
      exact h ▸ scanBlock_err_shape cf cf.values (rem.take n) seen e2 hscan
    | ok p =>
      obtain ⟨rows, seen2⟩ := p
      rw [processBlocks_cons_ok clip n cf cs2 rem seen written rows seen2 hscan] at h
      exact ih _ _ _ _ h

/-- Unfolding of perturbations when both preliminary checks pass. -/
theorem perturbations_main (members center : List GribField)
    (clip : List String) (output : Option String)
    (h1 : none ∉ unique_values_number members)
    (h2 : (order_by center).length * (unique_values_number members).length =
      (order_by members).length) :
    perturbations members center clip output =
      (let run := processBlocks clip (unique_values_number members).length
        (order_by center) (order_by members) [] []
       match run.err with
       | some e => ⟨run.written, .error e⟩
       | none =>
         if run.seen.length ≠ (order_by members).length then
           ⟨run.written, .error (.seenCount run.seen.length (order_by members).length)⟩
         else
           match output with
           | some p => ⟨run.written, .ok (.path p)⟩
           | none =>
             if run.written.length ≠ (order_by members).length then
               ⟨run.written,
                 .error (.reopenCount run.written.length (order_by members).length)⟩
             else ⟨run.written, .ok (.collection run.written)⟩) := by
  simp [perturbations, h1, h2]

/-- A run that returned without raising passed both preliminary checks
and completed the main loop without error. -/
theorem perturbations_ok_elim (members center : List GribField)
    (clip : List String) (output : Option String)
    (hok : isOkB (perturbations members center clip output).result = true) :
    none ∉ unique_values_number members ∧
    (order_by center).length * (unique_values_number members).length =
      (order_by members).length ∧
    (processBlocks clip (unique_values_number members).length
      (order_by center) (order_by members) [] []).err = none := by
  by_cases h1 : none ∈ unique_values_number members
  · exfalso
    simp [perturbations, h1, isOkB] at hok
  by_cases h2 : (order_by center).length * (unique_values_number members).length =
      (order_by members).length
  · cases herr : (processBlocks clip (unique_values_number members).length
        (order_by center) (order_by members) [] []).err with
    | some e =>
      exfalso
      rw [perturbations_main members center clip output h1 h2] at hok
      simp [herr, isOkB] at hok
    | none => exact ⟨h1, h2, rfl⟩
  · exfalso
    simp [perturbations, h1, h2, isOkB] at hok

/-- When the main loop completes without error, both post-loop asserts
pass, the write calls are exactly the blockwise writes, and the routine
returns the output path or the collection of the written fields. -/
theorem perturbations_done (members center : List GribField)
    (clip : List String) (output : Option String)
    (h1 : none ∉ unique_values_number members)
    (h2 : (order_by center).length * (unique_values_number members).length =
      (order_by members).length)
    (herr : (processBlocks clip (unique_values_number members).length
      (order_by center) (order_by members) [] []).err = none) :
    (perturbations members center clip output).written =
      allWrites clip (unique_values_number members).length
        (order_by center) (order_by members) ∧
    (perturbations members center clip output).result =
      (match output with
       | some p => Except.ok (.path p)
       | none => Except.ok (.collection
           (allWrites clip (unique_values_number members).length
             (order_by center) (order_by members)))) := by
  obtain ⟨hw, hs, _⟩ := processBlocks_ok_elim clip
    (unique_values_number members).length (order_by center) (order_by members)
    [] [] h2.symm herr
  rw [List.nil_append] at hw hs
  have hseen : (processBlocks clip (unique_values_number members).length
      (order_by center) (order_by members) [] []).seen.length =
      (order_by members).length := by
    rw [hs]; simp
  have hwlen : (processBlocks clip (unique_values_number members).length
      (order_by center) (order_by members) [] []).written.length =
      (order_by members).length := by
    rw [hw]
    exact allWrites_length clip _ _ _ h2.symm
  rw [perturbations_main members center clip output h1 h2]
  simp only [herr]
  rw [if_neg (by simp [hseen])]
  cases output with
  | some p => simp [hw]
  | none =>
    rw [if_neg (by simp [hwlen])]
    simp [hw]

/-- When the ordered members contain a canonical mars key that is already
in the seen set, or twice at two positions p < q, the main loop aborts
with an error and no write is made past the block of position q. -/
theorem processBlocks_duplicate_aborts (clip : List String) (n : ℕ) :
    ∀ (cs rem : List GribField) (seen : List (List (String × String)))
      (written : List WriteRec) (q : ℕ),
      rem.length = cs.length * n →
      q < rem.length →
      ((fieldKey (rem.getD q defaultField) ∈ seen) ∨
        ∃ p, p < q ∧
          fieldKey (rem.getD p defaultField) = fieldKey (rem.getD q defaultField)) →
      (processBlocks clip n cs rem seen written).err ≠ none ∧
      (processBlocks clip n cs rem seen written).written.length ≤
        written.length + (q / n) * n := by
  intro cs
  induction cs with
  | nil =>
    intro rem seen written q hlen hq _
    rw [List.length_nil, Nat.zero_mul] at hlen
    omega
  | cons cf cs2 ih =>
    intro rem seen written q hlen hq hdup
    rw [List.length_cons, Nat.succ_mul] at hlen
    have hn : 0 < n := by
      rcases Nat.eq_zero_or_pos n with h0 | h0
      · subst h0; omega
      · exact h0
    cases hscan : scanBlock cf cf.values seen (rem.take n) with
    | error e =>
      rw [processBlocks_cons_err clip n cf cs2 rem seen written e hscan]
      exact ⟨by simp, by simp⟩
    | ok p =>
      obtain ⟨rows, seen2⟩ := p
      obtain ⟨hr, hs2, _, hnd, hfresh⟩ := scanBlock_ok_elim _ _ _ _ _ _ hscan
      rw [processBlocks_cons_ok clip n cf cs2 rem seen written rows seen2 hscan]
      have htklen : (rem.take n).length = n := by
        rw [List.length_take]; omega
      have hgetD_take : ∀ t, t < n →
          (rem.take n).getD t defaultField = rem.getD t defaultField := by
        intro t ht
        rw [List.getD_eq_getElem?_getD, List.getD_eq_getElem?_getD,
          List.getElem?_take, if_pos ht]
      have hmem_take : ∀ t, t < n →
          fieldKey (rem.getD t defaultField) ∈ (rem.take n).map fieldKey := by
        intro t ht
        rw [← hgetD_take t ht]
        apply List.mem_map.mpr
        refine ⟨(rem.take n).getD t defaultField, ?_, rfl⟩
        rw [List.getD_eq_getElem _ _ (by omega)]
        exact List.getElem_mem _
      by_cases hqn : q < n
      · exfalso
        rcases hdup with hseen | ⟨p, hpq, hpe⟩
        · exact hfresh _ (hmem_take q hqn) hseen
        · have hmapq : (List.map fieldKey (rem.take n))[q]? =
              some (fieldKey (rem.getD q defaultField)) := by
            rw [List.getElem?_map, List.getElem?_eq_getElem
              (by omega : q < (rem.take n).length), Option.map_some']
            rw [← hgetD_take q hqn,
              List.getD_eq_getElem _ _ (by omega : q < (rem.take n).length)]
          have hmapp : (List.map fieldKey (rem.take n))[p]? =
              some (fieldKey (rem.getD p defaultField)) := by
            rw [List.getElem?_map, List.getElem?_eq_getElem
              (by omega : p < (rem.take n).length), Option.map_some']
            rw [← hgetD_take p (by omega),
              List.getD_eq_getElem _ _ (by omega : p < (rem.take n).length)]
          have : p = q := by
            apply List.getElem?_inj (by simp [htklen]; omega) hnd
            rw [hmapp, hmapq, hpe]
          omega
      · push_neg at hqn
        have hlen2 : (rem.drop n).length = cs2.length * n := by
          rw [List.length_drop]; omega
        have hq2 : q - n < (rem.drop n).length := by
          rw [List.length_drop]; omega
        have hgetD_drop : ∀ t, n ≤ t →
            (rem.drop n).getD (t - n) defaultField = rem.getD t defaultField := by
          intro t ht
          rw [List.getD_eq_getElem?_getD, List.getD_eq_getElem?_getD,
            List.getElem?_drop]
          congr 2
          omega
        have hdup2 : (fieldKey ((rem.drop n).getD (q - n) defaultField) ∈ seen2) ∨
            ∃ p, p < q - n ∧
              fieldKey ((rem.drop n).getD p defaultField) =
                fieldKey ((rem.drop n).getD (q - n) defaultField) := by
          rw [hgetD_drop q hqn]
          rcases hdup with hseen | ⟨p, hpq, hpe⟩
          · left
            rw [hs2, List.mem_append]
            exact Or.inl hseen
          · by_cases hpn : p < n
            · left
              rw [hs2, List.mem_append]
              right
              rw [← hpe]
              exact hmem_take p hpn
            · right
              push_neg at hpn
              refine ⟨p - n, by omega, ?_⟩
              have hpd : (rem.drop n).getD (p - n) defaultField =
                  rem.getD p defaultField := hgetD_drop p hpn
              rw [hpd, hpe]
        obtain ⟨he, hwl⟩ := ih (rem.drop n) seen2
          (written ++ writeBlock cf.param clip cf.values
            (meanAxis0 rows cf.values.length) rows (rem.take n))
          (q - n) hlen2 hq2 hdup2
        refine ⟨he, ?_⟩
        have hwb : (writeBlock cf.param clip cf.values
            (meanAxis0 rows cf.values.length) rows (rem.take n)).length = n := by
          rw [writeBlock, List.length_zipWith, hr, List.length_map, htklen]
          simp
        have hdivq : q / n * n = (q - n) / n * n + n := by
          rw [Nat.div_eq_sub_div hn hqn]
          ring
        rw [List.length_append, hwb] at hwl
        rw [hdivq]
        omega

/-- The j-th member of block i is the member at position i * n + j. -/
theorem block_getD (rem : List GribField) (n i j : ℕ) (hj : j < n) :
    ((rem.drop (i * n)).take n).getD j defaultField =
      rem.getD (i * n + j) defaultField := by
  rw [List.getD_eq_getElem?_getD, List.getD_eq_getElem?_getD,
    List.getElem?_take, if_pos hj, List.getElem?_drop]

/-- When the counts line up every block has exactly n members. -/
theorem block_length (rem : List GribField) (cslen n i : ℕ)
    (hlen : rem.length = cslen * n) (hi : i < cslen) :
    ((rem.drop (i * n)).take n).length = n := by
  rw [List.length_take, List.length_drop]
  have h1 : (i + 1) * n ≤ cslen * n := Nat.mul_le_mul_right n (by omega)
  have h2 : (i + 1) * n = i * n + n := by ring
  omega

/-- The grids written for one block are the recentered member grids, in
member order, clipped exactly when the parameter is in the clip set. -/
theorem writeBlock_map_values (param : String) (clip : List String)
    (c m : List ℚ) :
    ∀ (rows : List (List ℚ)) (templates : List GribField),
      rows.length = templates.length →
      (writeBlock param clip c m rows templates).map (fun w => w.values) =
        rows.map (fun e =>
          if param ∈ clip then gridClip (gridAdd (gridSub c m) e)
          else gridAdd (gridSub c m) e) := by
  intro rows
  induction rows with
  | nil => intro templates _; simp [writeBlock]
  | cons e es ih =>
    intro templates hlen
    cases templates with
    | nil => simp at hlen
    | cons t ts =>
      simp only [writeBlock, List.zipWith_cons_cons, List.map_cons]
      rw [List.length_cons, List.length_cons] at hlen
      have := ih ts (by omega)
      rw [writeBlock] at this
      rw [this]

/-- Block i of the writes of a successful run. -/
theorem allWrites_drop_take (clip : List String) (n : ℕ) :
    ∀ (cs rem : List GribField) (i : ℕ), rem.length = cs.length * n →
      i < cs.length →
      ((allWrites clip n cs rem).drop (i * n)).take n =
        blockWrites clip (cs.getD i defaultField) ((rem.drop (i * n)).take n) := by
  intro cs
  induction cs with
  | nil => intro rem i _ hi; exact absurd hi (by simp)
  | cons cf cs2 ih =>
    intro rem i hlen hi
    rw [List.length_cons, Nat.succ_mul] at hlen
    have hbl : (blockWrites clip cf (rem.take n)).length = n := by
      rw [blockWrites_length, List.length_take]; omega
    cases i with
    | zero =>
      have h1 : ∀ (l1 l2 : List WriteRec), l1.length = n →
          (l1 ++ l2).take n = l1 := by
        intro l1 l2 h
        rw [← h, List.take_left]
      simp only [Nat.zero_mul, List.drop_zero, List.getD_cons_zero, allWrites]
      exact h1 _ _ hbl
    | succ i =>
      have hi2 : i < cs2.length := by rw [List.length_cons] at hi; omega
      have hlen2 : (rem.drop n).length = cs2.length * n := by
        rw [List.length_drop]; omega
      have hstep : (i + 1) * n = n + i * n := by ring
      have h2 : ∀ (l1 l2 : List WriteRec) (k : ℕ), l1.length = n →
          (l1 ++ l2).drop (n + k) = l2.drop k := by
        intro l1 l2 k h
        rw [← h, List.drop_append]
      simp only [allWrites, List.getD_cons_succ]
      rw [hstep, h2 _ _ (i * n) hbl, ih (rem.drop n) i hlen2 hi2, ← List.drop_drop]

/-- Every element of a clipped grid is non-negative. -/
theorem gridClip_nonneg (a : List ℚ) : ∀ v ∈ gridClip a, 0 ≤ v := by
  intro v hv
  simp only [gridClip, List.mem_map] at hv
  obtain ⟨w, _, rfl⟩ := hv
  exact le_max_right w 0

/-! ### Claim theorems -/

/-- C5 (amended): check_compatible succeeds if and only if the two fields
have the same grid descriptor, the same geographic area, the same array
shape, the same valid timestamp, and every non-excluded key of the union
of the two mars key sets is present in both mappings with equal values.
(The original claim quantified only over shared keys; a non-excluded key
present in a single mapping makes the check fail with a key lookup error,
so the union is needed.) -/
theorem spec_c5 (f1 f2 : GribField) (m1 m2 : List (String × String)) :
    check_compatible f1 f2 m1 m2 = .ok () ↔
      (f1.mars_grid = f2.mars_grid ∧ f1.mars_area = f2.mars_area ∧
       f1.shape = f2.shape ∧ f1.valid_datetime = f2.valid_datetime ∧
       ∀ k, (k ∈ m1.map Prod.fst ∨ k ∈ m2.map Prod.fst) → k ∉ SKIP →
         ∃ v, lookupKey k m1 = some v ∧ lookupKey k m2 = some v) :=
  check_compatible_ok_char f1 f2 m1 m2

/-- C5 counterexample: two fields identical in grid, area, shape and
timestamp whose shared non-excluded keys agree, yet check_compatible
fails, because one mars mapping holds an extra non-excluded key. -/
theorem spec_c5_counterexample :
    specCompatible exExtraKeyField exCenterT
      exExtraKeyField.as_mars exCenterT.as_mars ∧
    check_compatible exExtraKeyField exCenterT
      exExtraKeyField.as_mars exCenterT.as_mars ≠ .ok () := by
  constructor
  · decide
  · decide

/-- C6 (amended): for every input with no unset member number whose field
counts do not line up, perturbations raises the descriptive ValueError
carrying the center count, the number count and the member count, before
any output field is written.  (The original claim promised this error for
every count mismatch, but an unset member number aborts first with the
assertion error, as the counterexample shows.) -/
theorem spec_c6 (members center : List GribField) (clip : List String)
    (output : Option String)
    (hnum : none ∉ unique_values_number members)
    (hmis : center.length * (unique_values_number members).length ≠
      members.length) :
    (perturbations members center clip output).result =
      .error (.countMismatch center.length
        (unique_values_number members).length members.length) ∧
    (perturbations members center clip output).written = [] := by
  have hres : perturbations members center clip output =
      ⟨[], .error (.countMismatch (order_by center).length
        (unique_values_number members).length (order_by members).length)⟩ := by
    simp only [perturbations]
    rw [if_neg hnum]
    rw [if_pos (by rw [order_by_length, order_by_length]; exact hmis)]
  rw [hres]
  exact ⟨by simp [order_by_length], rfl⟩

/-- C6 counterexample: an input whose counts mismatch (0 center fields,
one distinct number, one member) but whose member number is unset raises
the unset-number assertion error, not the count-mismatch ValueError. -/
theorem spec_c6_counterexample :
    ([] : List GribField).length *
        (unique_values_number [exUnsetMember]).length ≠
      [exUnsetMember].length ∧
    (perturbations [exUnsetMember] [] CLIP_VARIABLES none).result =
      .error .unsetNumber ∧
    (perturbations [exUnsetMember] [] CLIP_VARIABLES none).result ≠
      .error (.countMismatch 0 1 1) := by
  refine ⟨by decide, by decide, by decide⟩

/-- C6 witness. -/
theorem spec_c6_witness :
    (none ∉ unique_values_number [exMemberT1] ∧
      ([] : List GribField).length *
          (unique_values_number [exMemberT1]).length ≠ [exMemberT1].length) ∧
    (perturbations [exMemberT1] [] CLIP_VARIABLES none).result =
      .error (.countMismatch 0 1 1) ∧
    (perturbations [exMemberT1] [] CLIP_VARIABLES none).written = [] := by
  refine ⟨⟨by decide, by decide⟩, ?_⟩
  exact spec_c6 [exMemberT1] [] CLIP_VARIABLES none (by decide) (by decide)

/-- C8: when the unset member number sentinel appears among the distinct
member numbers, perturbations fails with the assertion error before any
output is written. -/
theorem spec_c8 (members center : List GribField) (clip : List String)
    (output : Option String)
    (hnum : none ∈ unique_values_number members) :
    (perturbations members center clip output).result = .error .unsetNumber ∧
    (perturbations members center clip output).written = [] := by
  have hres : perturbations members center clip output =
      ⟨[], .error .unsetNumber⟩ := by
    simp only [perturbations]
    rw [if_pos hnum]
  rw [hres]
  exact ⟨rfl, rfl⟩

/-- C8 witness. -/
theorem spec_c8_witness :
    none ∈ unique_values_number [exUnsetMember] ∧
    (perturbations [exUnsetMember] [exCenterT] CLIP_VARIABLES none).result =
      .error .unsetNumber ∧
    (perturbations [exUnsetMember] [exCenterT] CLIP_VARIABLES none).written = [] := by
  refine ⟨by decide, ?_⟩
  exact spec_c8 [exUnsetMember] [exCenterT] CLIP_VARIABLES none (by decide)

/-- C9: the post-loop assertion comparing the seen count to the member
count can never fail: no run of perturbations ever returns the seenCount
error, because on every error-free pass exactly one fresh canonical key
is added per member. -/
theorem spec_c9 (members center : List GribField) (clip : List String)
    (output : Option String) :
    isSeenCountErr (perturbations members center clip output).result = false := by
  by_cases h1 : none ∈ unique_values_number members
  · simp [perturbations, h1, isSeenCountErr]
  by_cases h2 : (order_by center).length * (unique_values_number members).length =
      (order_by members).length
  · cases herr : (processBlocks clip (unique_values_number members).length
        (order_by center) (order_by members) [] []).err with
    | some e =>
      rw [perturbations_main members center clip output h1 h2]
      simp only [herr]
      rcases processBlocks_err_shape clip _ _ _ _ _ e herr with
        ⟨ce, rfl⟩ | ⟨a, b, rfl⟩ | ⟨key, rfl⟩ <;> simp [isSeenCountErr]
    | none =>
      obtain ⟨_, hres⟩ := perturbations_done members center clip output h1 h2 herr
      rw [hres]
      cases output <;> simp [isSeenCountErr]
  · simp [perturbations, h1, h2, isSeenCountErr]

/-- C10: with an empty members collection the number count is zero, the
cardinality precondition holds vacuously for every center collection, and
perturbations completes without error producing an output with zero
fields. -/
theorem spec_c10 (center : List GribField) (clip : List String)
    (output : Option String) :
    (perturbations [] center clip output).written = [] ∧
    isOkB (perturbations [] center clip output).result = true := by
  have h1 : none ∉ unique_values_number ([] : List GribField) := by decide
  have h2 : (order_by center).length *
      (unique_values_number ([] : List GribField)).length =
      (order_by ([] : List GribField)).length := by
    simp [unique_values_number, dedupAcc, order_by]
  have herr : (processBlocks clip
      (unique_values_number ([] : List GribField)).length
      (order_by center) (order_by ([] : List GribField)) [] []).err = none := by
    rw [processBlocks_ok_intro clip _ (order_by center) _ [] [] h2.symm
      (by intro i hi ef hef; simp [order_by, unique_values_number, dedupAcc] at hef)
      (by simp [order_by]) (by simp [order_by])]
  obtain ⟨hw, hres⟩ := perturbations_done [] center clip output h1 h2 herr
  constructor
  · rw [hw]
    apply List.length_eq_zero.mp
    rw [allWrites_length clip _ _ _ h2.symm]
    simp [order_by]
  · rw [hres]
    cases output <;> simp [isOkB]

/-- C7: when two ordered members at positions p < q carry the same
canonical mars key set, perturbations raises a fatal error, and no output
field is written for the duplicate: at most q fields are ever written, so
the write for position q never happens. -/
theorem spec_c7 (members center : List GribField) (clip : List String)
    (output : Option String) (p q : ℕ)
    (hq : q < (order_by members).length) (hpq : p < q)
    (hdup : fieldKey ((order_by members).getD p defaultField) =
      fieldKey ((order_by members).getD q defaultField)) :
    (∃ e, (perturbations members center clip output).result = .error e) ∧
    (perturbations members center clip output).written.length ≤ q := by
  by_cases h1 : none ∈ unique_values_number members
  · have hres : perturbations members center clip output =
        ⟨[], .error .unsetNumber⟩ := by
      simp only [perturbations]
      rw [if_pos h1]
    rw [hres]
    exact ⟨⟨_, rfl⟩, by simp⟩
  by_cases h2 : (order_by center).length * (unique_values_number members).length =
      (order_by members).length
  · obtain ⟨herr, hwl⟩ := processBlocks_duplicate_aborts clip
      (unique_values_number members).length (order_by center) (order_by members)
      [] [] q h2.symm hq (Or.inr ⟨p, hpq, hdup⟩)
    cases herr2 : (processBlocks clip (unique_values_number members).length
        (order_by center) (order_by members) [] []).err with
    | none => exact absurd herr2 herr
    | some e =>
      rw [perturbations_main members center clip output h1 h2]
      simp only [herr2]
      refine ⟨⟨e, rfl⟩, ?_⟩
      simp only [List.length_nil, Nat.zero_add] at hwl
      exact le_trans hwl (Nat.div_mul_le_self q _)
  · have hres : perturbations members center clip output =
        ⟨[], .error (.countMismatch (order_by center).length
          (unique_values_number members).length (order_by members).length)⟩ := by
      simp only [perturbations]
      rw [if_neg h1, if_pos h2]
    rw [hres]
    exact ⟨⟨_, rfl⟩, by simp⟩

/-- C7 witness. -/
theorem spec_c7_witness :
    (1 < (order_by [exMemberT1, exDupMember]).length ∧ 0 < 1 ∧
      fieldKey ((order_by [exMemberT1, exDupMember]).getD 0 defaultField) =
        fieldKey ((order_by [exMemberT1, exDupMember]).getD 1 defaultField)) ∧
    (∃ e, (perturbations [exMemberT1, exDupMember] [exCenterT]
      CLIP_VARIABLES none).result = .error e) ∧
    (perturbations [exMemberT1, exDupMember] [exCenterT]
      CLIP_VARIABLES none).written.length ≤ 1 := by
  refine ⟨⟨by decide, by decide, by decide⟩, ?_⟩
  exact spec_c7 [exMemberT1, exDupMember] [exCenterT] CLIP_VARIABLES none 0 1
    (by decide) (by decide) (by decide)

/-- C2: for every input satisfying the preconditions (no unset member
number, member count equal to center count times number count, pairwise
distinct canonical keys, and blockwise compatible fields with grids of
the center size), perturbations writes exactly one field per member;
with an explicit output path it returns that path, and otherwise it
returns the reopened collection whose length equals the member count. -/
theorem spec_c2 (members center : List GribField) (clip : List String)
    (output : Option String)
    (hnum : none ∉ unique_values_number members)
    (hcount : center.length * (unique_values_number members).length =
      members.length)
    (hnodup : ((order_by members).map fieldKey).Nodup)
    (hcompat : ∀ i ∈ List.range (order_by center).length,
      ∀ j ∈ List.range (unique_values_number members).length,
        check_compatible ((order_by center).getD i defaultField)
            ((order_by members).getD
              (i * (unique_values_number members).length + j) defaultField)
            ((order_by center).getD i defaultField).as_mars
            ((order_by members).getD
              (i * (unique_values_number members).length + j) defaultField).as_mars
          = .ok () ∧
        ((order_by members).getD
            (i * (unique_values_number members).length + j)
            defaultField).values.length =
          ((order_by center).getD i defaultField).values.length) :
    (perturbations members center clip output).written.length = members.length ∧
    (∀ pth, output = some pth →
      (perturbations members center clip output).result = .ok (.path pth)) ∧
    (output = none →
      ∃ ds, (perturbations members center clip output).result =
          .ok (.collection ds) ∧ ds.length = members.length) := by
  have h2 : (order_by center).length * (unique_values_number members).length =
      (order_by members).length := by
    rw [order_by_length, order_by_length]
    exact hcount
  have hcompat2 : ∀ i, i < (order_by center).length →
      ∀ ef ∈ ((order_by members).drop
          (i * (unique_values_number members).length)).take
            (unique_values_number members).length,
        check_compatible ((order_by center).getD i defaultField) ef
          ((order_by center).getD i defaultField).as_mars ef.as_mars = .ok () ∧
        ef.values.length =
          ((order_by center).getD i defaultField).values.length := by
    intro i hi ef hef
    have hblen := block_length (order_by members) (order_by center).length
      (unique_values_number members).length i h2.symm hi
    obtain ⟨j, hj, hje⟩ := List.mem_iff_getElem.mp hef
    have hj2 : j < (unique_values_number members).length := by omega
    have hef2 : ef = (order_by members).getD
        (i * (unique_values_number members).length + j) defaultField := by
      rw [← block_getD (order_by members) (unique_values_number members).length
        i j hj2, List.getD_eq_getElem _ _ hj, hje]
    rw [hef2]
    exact hcompat i (List.mem_range.mpr hi) j (List.mem_range.mpr hj2)
  have herr2 : (processBlocks clip (unique_values_number members).length
      (order_by center) (order_by members) [] []).err = none := by
    rw [processBlocks_ok_intro clip (unique_values_number members).length
      (order_by center) (order_by members) [] [] h2.symm hcompat2 hnodup
      (by simp)]
  obtain ⟨hw, hres⟩ := perturbations_done members center clip output hnum h2 herr2
  refine ⟨?_, ?_, ?_⟩
  · rw [hw, allWrites_length clip _ _ _ h2.symm, order_by_length]
  · intro pth hout
    rw [hres, hout]
  · intro hout
    rw [hres, hout]
    exact ⟨_, rfl, by rw [allWrites_length clip _ _ _ h2.symm, order_by_length]⟩

/-- C2 witness. -/
theorem spec_c2_witness :
    (none ∉ unique_values_number [exMemberT1, exMemberT2] ∧
      [exCenterT].length *
          (unique_values_number [exMemberT1, exMemberT2]).length =
        [exMemberT1, exMemberT2].length ∧
      ((order_by [exMemberT1, exMemberT2]).map fieldKey).Nodup) ∧
    (perturbations [exMemberT1, exMemberT2] [exCenterT] CLIP_VARIABLES
        none).written.length = [exMemberT1, exMemberT2].length ∧
    ((none : Option String) = none →
      ∃ ds, (perturbations [exMemberT1, exMemberT2] [exCenterT] CLIP_VARIABLES
          none).result = .ok (.collection ds) ∧
        ds.length = [exMemberT1, exMemberT2].length) := by
  have h := spec_c2 [exMemberT1, exMemberT2] [exCenterT] CLIP_VARIABLES none
    (by decide) (by decide) (by decide) (by decide)
  exact ⟨⟨by decide, by decide, by decide⟩, h.1, h.2.2⟩

/-- C1: on a run that returns without raising, for every center position
i and member index j with a block parameter outside the clip set, the
grid written at position i * n_numbers + j is c - m + E_j elementwise,
with c the center grid, m the per-gridpoint mean of the ensemble grids of
block i, and E_j the grid of the ordered member at i * n_numbers + j,
which is also the template of the write. -/
theorem spec_c1 (members center : List GribField) (clip : List String)
    (output : Option String) (i j : ℕ)
    (hok : isOkB (perturbations members center clip output).result = true)
    (hi : i < (order_by center).length)
    (hj : j < (unique_values_number members).length)
    (hclip : ((order_by center).getD i defaultField).param ∉ clip) :
    (perturbations members center clip
        output).written[i * (unique_values_number members).length + j]? =
      some ⟨gridAdd
          (gridSub ((order_by center).getD i defaultField).values
            (meanAxis0
              ((((order_by members).drop
                  (i * (unique_values_number members).length)).take
                    (unique_values_number members).length).map (fun f => f.values))
              ((order_by center).getD i defaultField).values.length))
          (((order_by members).getD
              (i * (unique_values_number members).length + j) defaultField).values),
        (order_by members).getD
          (i * (unique_values_number members).length + j) defaultField⟩ := by
  obtain ⟨h1, h2, herr⟩ := perturbations_ok_elim members center clip output hok
  obtain ⟨hw, _⟩ := perturbations_done members center clip output h1 h2 herr
  rw [hw, allWrites_getElem clip _ _ _ i j h2.symm hi hj]
  have hblen := block_length (order_by members) (order_by center).length
    (unique_values_number members).length i h2.symm hi
  rw [blockWrites_getElem clip _ _ j (by omega)]
  rw [block_getD (order_by members) (unique_values_number members).length i j hj]
  simp only [if_neg hclip]

/-- C1 witness. -/
theorem spec_c1_witness :
    (isOkB (perturbations [exMemberT1, exMemberT2] [exCenterT] CLIP_VARIABLES
        none).result = true ∧
      0 < (order_by [exCenterT]).length ∧
      0 < (unique_values_number [exMemberT1, exMemberT2]).length ∧
      ((order_by [exCenterT]).getD 0 defaultField).param ∉ CLIP_VARIABLES) ∧
    (perturbations [exMemberT1, exMemberT2] [exCenterT] CLIP_VARIABLES
        none).written[0 * (unique_values_number [exMemberT1, exMemberT2]).length
          + 0]? =
      some ⟨gridAdd
          (gridSub ((order_by [exCenterT]).getD 0 defaultField).values
            (meanAxis0
              ((((order_by [exMemberT1, exMemberT2]).drop
                  (0 * (unique_values_number [exMemberT1, exMemberT2]).length)).take
                    (unique_values_number [exMemberT1, exMemberT2]).length).map
                (fun f => f.values))
              ((order_by [exCenterT]).getD 0 defaultField).values.length))
          (((order_by [exMemberT1, exMemberT2]).getD
              (0 * (unique_values_number [exMemberT1, exMemberT2]).length + 0)
              defaultField).values),
        (order_by [exMemberT1, exMemberT2]).getD
          (0 * (unique_values_number [exMemberT1, exMemberT2]).length + 0)
          defaultField⟩ := by
  refine ⟨⟨by decide, by decide, by decide, by decide⟩, ?_⟩
  exact spec_c1 [exMemberT1, exMemberT2] [exCenterT] CLIP_VARIABLES none 0 0
    (by decide) (by decide) (by decide) (by decide)

/-- C3: on a run that returns without raising, an output field whose
parameter (equal to the block parameter) is in the clip set carries the
grid max(c - m + E_j, 0), all of whose elements are non-negative, while
an output field whose parameter is not in the clip set carries the
unclamped grid c - m + E_j. -/
theorem spec_c3 (members center : List GribField) (clip : List String)
    (output : Option String) (i j : ℕ)
    (hok : isOkB (perturbations members center clip output).result = true)
    (hi : i < (order_by center).length)
    (hj : j < (unique_values_number members).length)
    (hparam : ((order_by members).getD
        (i * (unique_values_number members).length + j) defaultField).param =
      ((order_by center).getD i defaultField).param) :
    (((order_by members).getD
        (i * (unique_values_number members).length + j) defaultField).param ∈
          clip →
      (perturbations members center clip
          output).written[i * (unique_values_number members).length + j]? =
        some ⟨gridClip (gridAdd
            (gridSub ((order_by center).getD i defaultField).values
              (meanAxis0
                ((((order_by members).drop
                    (i * (unique_values_number members).length)).take
                      (unique_values_number members).length).map (fun f => f.values))
                ((order_by center).getD i defaultField).values.length))
            (((order_by members).getD
                (i * (unique_values_number members).length + j)
                defaultField).values)),
          (order_by members).getD
            (i * (unique_values_number members).length + j) defaultField⟩ ∧
      ∀ v ∈ gridClip (gridAdd
          (gridSub ((order_by center).getD i defaultField).values
            (meanAxis0
              ((((order_by members).drop
                  (i * (unique_values_number members).length)).take
                    (unique_values_number members).length).map (fun f => f.values))
              ((order_by center).getD i defaultField).values.length))
          (((order_by members).getD
              (i * (unique_values_number members).length + j)
              defaultField).values)), 0 ≤ v) ∧
    (((order_by members).getD
        (i * (unique_values_number members).length + j) defaultField).param ∉
          clip →
      (perturbations members center clip
          output).written[i * (unique_values_number members).length + j]? =
        some ⟨gridAdd
            (gridSub ((order_by center).getD i defaultField).values
              (meanAxis0
                ((((order_by members).drop
                    (i * (unique_values_number members).length)).take
                      (unique_values_number members).length).map (fun f => f.values))
                ((order_by center).getD i defaultField).values.length))
            (((order_by members).getD
                (i * (unique_values_number members).length + j)
                defaultField).values),
          (order_by members).getD
            (i * (unique_values_number members).length + j) defaultField⟩) := by
  obtain ⟨h1, h2, herr⟩ := perturbations_ok_elim members center clip output hok
  obtain ⟨hw, _⟩ := perturbations_done members center clip output h1 h2 herr
  have hblen := block_length (order_by members) (order_by center).length
    (unique_values_number members).length i h2.symm hi
  constructor
  · intro hin
    rw [hparam] at hin
    constructor
    · rw [hw, allWrites_getElem clip _ _ _ i j h2.symm hi hj]
      rw [blockWrites_getElem clip _ _ j (by omega)]
      rw [block_getD (order_by members) (unique_values_number members).length i j hj]
      simp only [if_pos hin]
    · exact gridClip_nonneg _
  · intro hout
    rw [hparam] at hout
    rw [hw, allWrites_getElem clip _ _ _ i j h2.symm hi hj]
    rw [blockWrites_getElem clip _ _ j (by omega)]
    rw [block_getD (order_by members) (unique_values_number members).length i j hj]
    simp only [if_neg hout]

/-- C3 witness (a clipped block: parameter tp, one negative recentered
value clamped to zero). -/
theorem spec_c3_witness :
    (isOkB (perturbations [exMemberTP1, exMemberTP2] [exCenterTP]
        CLIP_VARIABLES none).result = true ∧
      0 < (order_by [exCenterTP]).length ∧
      1 < (unique_values_number [exMemberTP1, exMemberTP2]).length ∧
      ((order_by [exMemberTP1, exMemberTP2]).getD
          (0 * (unique_values_number [exMemberTP1, exMemberTP2]).length + 1)
          defaultField).param =
        ((order_by [exCenterTP]).getD 0 defaultField).param) ∧
    (((order_by [exMemberTP1, exMemberTP2]).getD
        (0 * (unique_values_number [exMemberTP1, exMemberTP2]).length + 1)
        defaultField).param ∈ CLIP_VARIABLES →
      (perturbations [exMemberTP1, exMemberTP2] [exCenterTP] CLIP_VARIABLES
          none).written[0 * (unique_values_number
            [exMemberTP1, exMemberTP2]).length + 1]? =
        some ⟨gridClip (gridAdd
            (gridSub ((order_by [exCenterTP]).getD 0 defaultField).values
              (meanAxis0
                ((((order_by [exMemberTP1, exMemberTP2]).drop
                    (0 * (unique_values_number
                      [exMemberTP1, exMemberTP2]).length)).take
                      (unique_values_number [exMemberTP1, exMemberTP2]).length).map
                  (fun f => f.values))
                ((order_by [exCenterTP]).getD 0 defaultField).values.length))
            (((order_by [exMemberTP1, exMemberTP2]).getD
                (0 * (unique_values_number [exMemberTP1, exMemberTP2]).length + 1)
                defaultField).values)),
          (order_by [exMemberTP1, exMemberTP2]).getD
            (0 * (unique_values_number [exMemberTP1, exMemberTP2]).length + 1)
            defaultField⟩ ∧
      ∀ v ∈ gridClip (gridAdd
          (gridSub ((order_by [exCenterTP]).getD 0 defaultField).values
            (meanAxis0
              ((((order_by [exMemberTP1, exMemberTP2]).drop
                  (0 * (unique_values_number
                    [exMemberTP1, exMemberTP2]).length)).take
                    (unique_values_number [exMemberTP1, exMemberTP2]).length).map
                (fun f => f.values))
              ((order_by [exCenterTP]).getD 0 defaultField).values.length))
          (((order_by [exMemberTP1, exMemberTP2]).getD
              (0 * (unique_values_number [exMemberTP1, exMemberTP2]).length + 1)
              defaultField).values)), 0 ≤ v) := by
  refine ⟨⟨by decide, by decide, by decide, by decide⟩, ?_⟩
  exact (spec_c3 [exMemberTP1, exMemberTP2] [exCenterTP] CLIP_VARIABLES none 0 1
    (by decide) (by decide) (by decide) (by decide)).1

/-- C4 (amended): on a run that returns without raising, for every block
whose parameter is not in the clip set and a positive number count, the
per-gridpoint mean of the recentered output grids of the block equals the
center grid, exactly in rational arithmetic.  (The original claim
asserted the identity for every block, including blocks in the clip set;
clipping breaks it, as the counterexample shows.) -/
theorem spec_c4 (members center : List GribField) (clip : List String)
    (output : Option String) (i : ℕ)
    (hok : isOkB (perturbations members center clip output).result = true)
    (hi : i < (order_by center).length)
    (hn : (unique_values_number members).length ≠ 0)
    (hclip : ((order_by center).getD i defaultField).param ∉ clip) :
    meanAxis0
      ((((perturbations members center clip output).written.drop
          (i * (unique_values_number members).length)).take
            (unique_values_number members).length).map (fun w => w.values))
      ((order_by center).getD i defaultField).values.length =
      ((order_by center).getD i defaultField).values := by
  obtain ⟨h1, h2, herr⟩ := perturbations_ok_elim members center clip output hok
  obtain ⟨hw, _⟩ := perturbations_done members center clip output h1 h2 herr
  obtain ⟨_, _, hbl⟩ := processBlocks_ok_elim clip
    (unique_values_number members).length (order_by center) (order_by members)
    [] [] h2.symm herr
  rw [hw, allWrites_drop_take clip _ _ _ i h2.symm hi]
  simp only [blockWrites]
  rw [writeBlock_map_values _ clip _ _ _ _ (by rw [List.length_map])]
  simp only [if_neg hclip]
  apply meanAxis0_recenter_eq_center
  · intro r hr
    obtain ⟨ef, hef, rfl⟩ := List.mem_map.mp hr
    exact hbl i hi ef hef
  · rw [List.length_map,
      block_length (order_by members) (order_by center).length
        (unique_values_number members).length i h2.symm hi]
    exact hn

/-- C4 witness (a non-clip block: parameter t). -/
theorem spec_c4_witness :
    (isOkB (perturbations [exMemberT1, exMemberT2] [exCenterT] CLIP_VARIABLES
        none).result = true ∧
      0 < (order_by [exCenterT]).length ∧
      (unique_values_number [exMemberT1, exMemberT2]).length ≠ 0 ∧
      ((order_by [exCenterT]).getD 0 defaultField).param ∉ CLIP_VARIABLES) ∧
    meanAxis0
        ((((perturbations [exMemberT1, exMemberT2] [exCenterT] CLIP_VARIABLES
            none).written.drop
              (0 * (unique_values_number [exMemberT1, exMemberT2]).length)).take
                (unique_values_number [exMemberT1, exMemberT2]).length).map
          (fun w => w.values))
        ((order_by [exCenterT]).getD 0 defaultField).values.length =
      ((order_by [exCenterT]).getD 0 defaultField).values := by
  refine ⟨⟨by decide, by decide, by decide, by decide⟩, ?_⟩
  exact spec_c4 [exMemberT1, exMemberT2] [exCenterT] CLIP_VARIABLES none 0
    (by decide) (by decide) (by decide) (by decide)

/-- C4 counterexample: a clipped block (parameter tp) with center grid 0
and member grids 1 and -1; the clipped outputs are 1 and 0, whose mean
1/2 differs from the center grid. -/
theorem spec_c4_counterexample :
    ((order_by [exCenterTP]).getD 0 defaultField).param ∈ CLIP_VARIABLES ∧
    isOkB (perturbations [exMemberTP1, exMemberTP2] [exCenterTP]
      CLIP_VARIABLES none).result = true ∧
    meanAxis0
        ((((perturbations [exMemberTP1, exMemberTP2] [exCenterTP]
            CLIP_VARIABLES none).written.drop
              (0 * (unique_values_number [exMemberTP1, exMemberTP2]).length)).take
                (unique_values_number [exMemberTP1, exMemberTP2]).length).map
          (fun w => w.values))
        ((order_by [exCenterTP]).getD 0 defaultField).values.length ≠
      ((order_by [exCenterTP]).getD 0 defaultField).values := by
  refine ⟨by decide, by decide, ?_⟩
  norm_num +decide [perturbations, processBlocks, scanBlock, writeBlock, meanAxis0,
    order_by, insertField, fieldLeB, fieldKeyCmp, cmpStr, cmpInt, cmpOptInt,
    strLtB, charListLtB, unique_values_number, dedupAcc, check_compatible,
    checkMarsKeys, marsKeys, lookupKey, canonicalMars, insertPair, pairLeB,
    gridAdd, gridSub, gridClip, exCenterTP, exMemberTP1, exMemberTP2,
    CLIP_VARIABLES, SKIP, Ordering.then, List.range_succ, List.range_zero,
    Option.getD, defaultField]
